import Mathlib

/-!
Shallow embedding of `src/add_advanced_tags.py`: a two-phase bookmark
tagging program.  The bookmark tree, the SQLite-backed tag cache
(`TagDB`), the traversal (`collect_bookmarks`), Phase 1
(`process_phase1`), Phase 2 (`process_phase2`) and the `main` driver are
modelled as pure Lean functions; the external collaborators (the content
fetcher `get_page_content` and the tag generator `generate_tags`) are
parameters.  Python string operations are modelled structurally over
`List Char` so that every definition evaluates by kernel reduction.
-/

/-- A bookmark-tree node, mirroring the JSON records the Python script
walks.  `node.get('uri','')`, `node.get('title','')` and
`node.get('tags','')` default absent fields to the empty string, so
those fields are plain strings here; an absent `children` key behaves
exactly like an empty child list, and `node.get('type')` differing from
`'text/x-moz-place'` (including an absent key) behaves like any
non-matching string. -/
inductive Node where
  | mk (ty uri title tags : String) (children : List Node)

def Node.ty : Node → String
  | .mk t _ _ _ _ => t

def Node.uri : Node → String
  | .mk _ u _ _ _ => u

def Node.title : Node → String
  | .mk _ _ ti _ _ => ti

def Node.tags : Node → String
  | .mk _ _ _ ta _ => ta

def Node.children : Node → List Node
  | .mk _ _ _ _ cs => cs

/-- One row of the `page_tags` table: `(title, tags, updated_at)`;
the `url` primary key is the first component of the pair stored in the
enclosing table. -/
structure Row where
  title : String
  tags : String
  updated_at : Nat
deriving DecidableEq

/-- The `page_tags` table: `url` is the primary key; rows are kept in
insertion order, as SQLite keeps them. -/
abbrev DB := List (String × Row)

/-- Row lookup by primary key: `SELECT ... FROM page_tags WHERE url = ?`
followed by `fetchone()`. -/
def findRow : DB → String → Option Row
  | [], _ => none
  | (u, r) :: rest, url => if u = url then some r else findRow rest url

/-- `TagDB.get_tags`: `SELECT tags FROM page_tags WHERE url = ?`;
returns `row[0] if row else None`. -/
def get_tags (db : DB) (url : String) : Option String :=
  (findRow db url).map Row.tags

/-- The `INSERT ... ON CONFLICT(url) DO UPDATE SET tags = excluded.tags,
updated_at = excluded.updated_at` statement: on a key conflict only
`tags` and `updated_at` are replaced (the stored `title` is kept, since
the conflict clause does not mention `title`); otherwise a fresh row
`(url, title, tags, now)` is appended. -/
def upsertRow : DB → String → String → String → Nat → DB
  | [], url, title, str, now => [(url, ⟨title, str, now⟩)]
  | (u, r) :: rest, url, title, str, now =>
    if u = url then (u, ⟨r.title, str, now⟩) :: rest
    else (u, r) :: upsertRow rest url title str now

/-- `TagDB.upsert_tags`: `tags_str = ",".join(tags_list)`, then the
upsert statement with `now = datetime.datetime.now().isoformat()`
(timestamps are modelled as naturals supplied by the caller). -/
def upsert_tags (db : DB) (url title : String) (tags_list : List String) (now : Nat) : DB :=
  upsertRow db url title (String.intercalate "," tags_list) now

/-- Python `s.split(',')`: splits at every comma, keeping empty pieces. -/
def splitOnComma : List Char → List (List Char)
  | [] => [[]]
  | c :: cs =>
    if c = ',' then [] :: splitOnComma cs
    else
      match splitOnComma cs with
      | [] => [[c]]
      | p :: ps => (c :: p) :: ps

/-- Python `s.strip()`: drops leading and trailing whitespace. -/
def trimChars (cs : List Char) : List Char :=
  ((cs.dropWhile Char.isWhitespace).reverse.dropWhile Char.isWhitespace).reverse

/-- `[t.strip() for t in s.split(',') if t.strip()]` — the parsing of an
author-supplied tag field into a trimmed, non-empty tag list. -/
def parseTags (s : String) : List String :=
  (((splitOnComma s.data).map trimChars).filter (fun t => t ≠ [])).map String.mk

/-- Python `url.startswith('http')`. -/
def startsWithHttp (s : String) : Bool :=
  "http".data.isPrefixOf s.data

mutual

/-- `collect_bookmarks(node, bucket)`: appends `node` to the bucket
whenever `node.get('type') == 'text/x-moz-place'`, then recurses into
`node['children']` in order.  Modelled as returning the bucket. -/
def collect_bookmarks : Node → List Node
  | .mk t u ti ta cs =>
    (if t = "text/x-moz-place" then [Node.mk t u ti ta cs] else []) ++ collectChildren cs

def collectChildren : List Node → List Node
  | [] => []
  | c :: cs => collect_bookmarks c ++ collectChildren cs

end

mutual

/-- Depth-first pre-order listing of all nodes of a tree. -/
def preorder : Node → List Node
  | .mk t u ti ta cs => Node.mk t u ti ta cs :: preorderChildren cs

def preorderChildren : List Node → List Node
  | [] => []
  | c :: cs => preorder c ++ preorderChildren cs

end

/-- The spec's taggable-leaf predicate: the kind marks a bookmark place
and the uri is present and begins with an HTTP scheme. -/
def isTaggableLeaf (n : Node) : Bool :=
  n.ty == "text/x-moz-place" && startsWithHttp n.uri

/-- Result of one `generate_tags` call as observed by `process_phase1`:
either a (possibly empty) tag list — ordinary API errors also surface as
the empty list — or the distinguished quota-exhaustion signal
(`BlockingIOError` in the script). -/
inductive GenResult where
  | ok (tags : List String)
  | quota
deriving DecidableEq

/-- What happened at one node of the Phase 1 loop. -/
inductive Outcome where
  /-- `if not url.startswith('http'): continue` -/
  | skippedNonHttp
  /-- branch 1: manual tags synced to the store -/
  | manualSync
  /-- branch 2: cache hit in non-refresh mode, skipped -/
  | cacheHit
  /-- branch 3: quota already exhausted this run, generation skipped -/
  | quotaSkip
  /-- branch 4, but fetched title and content were both empty -/
  | fetchFailed
  /-- branch 4: generation succeeded with a non-empty tag list -/
  | generated (tags : List String)
  /-- branch 4: generation returned an empty tag list (no store write) -/
  | genEmpty
  /-- branch 4: the generator signalled quota exhaustion -/
  | quotaHit
deriving DecidableEq

/-- Whether the Content Fetcher was invoked for this outcome. -/
def Outcome.isFetchCall : Outcome → Bool
  | .fetchFailed | .generated _ | .genEmpty | .quotaHit => true
  | _ => false

/-- Whether the Tag Generator was invoked for this outcome. -/
def Outcome.isGenCall : Outcome → Bool
  | .generated _ | .genEmpty | .quotaHit => true
  | _ => false

/-- Run-scoped state of the Phase 1 loop: the store, the
`api_quota_reached` flag and a monotone clock supplying the upsert
timestamps. -/
structure P1State where
  db : DB
  quota : Bool
  time : Nat
deriving DecidableEq

/-- `final_title = title if title else page_title`: the node's title if
non-empty, else the first component (the page title) of the fetch
result. -/
def finalTitle (node : Node) (fetched : String × String) : String :=
  if node.title ≠ "" then node.title else fetched.1

/-- The body of the `for i, node in enumerate(bookmarks)` loop of
`process_phase1`, for one node.  `init_mode` is the `--init` flag,
`fetch` is `get_page_content`, `gen` is `generate_tags` (with the
client already bound).  The Python locals `url`, `title`,
`existing_tags`, `page_title`, `content` and `final_title` are inlined
(`finalTitle node (fetch node.uri)` is `final_title`). -/
def step (init_mode : Bool) (fetch : String → String × String)
    (gen : String → String → GenResult) (s : P1State) (node : Node) : P1State × Outcome :=
  if startsWithHttp node.uri = false then (s, .skippedNonHttp)
  else if init_mode = false ∧ parseTags node.tags ≠ [] then
    (⟨upsert_tags s.db node.uri node.title (parseTags node.tags) s.time, s.quota, s.time + 1⟩,
      .manualSync)
  else if init_mode = false ∧ (get_tags s.db node.uri).isSome = true then (s, .cacheHit)
  else if s.quota = true then (s, .quotaSkip)
  else if finalTitle node (fetch node.uri) ≠ "" ∨ (fetch node.uri).2 ≠ "" then
    match gen (finalTitle node (fetch node.uri)) (fetch node.uri).2 with
    | .ok new_tags =>
      if new_tags ≠ [] then
        (⟨upsert_tags s.db node.uri (finalTitle node (fetch node.uri)) new_tags s.time, s.quota,
           s.time + 1⟩, .generated new_tags)
      else (s, .genEmpty)
    | .quota => (⟨s.db, true, s.time⟩, .quotaHit)
  else (s, .fetchFailed)

/-- `process_phase1`: folds the loop body over the flat bookmark list,
recording one outcome per node in order. -/
def process_phase1 (init_mode : Bool) (fetch : String → String × String)
    (gen : String → String → GenResult) : P1State → List Node → P1State × List Outcome
  | s, [] => (s, [])
  | s, n :: ns =>
    let p := step init_mode fetch gen s n
    let q := process_phase1 init_mode fetch gen p.1 ns
    (q.1, p.2 :: q.2)

mutual

/-- `process_phase2`: recursively rewrites the tree from the store.  For
a `text/x-moz-place` node with an `http` uri whose cached value is
truthy (present and non-empty), the `tags` field is overwritten with the
cached string; children are processed recursively.  Modelled as
returning the updated tree. -/
def process_phase2 (db : DB) : Node → Node
  | .mk t u ti ta cs =>
    let ta' :=
      if t = "text/x-moz-place" then
        if startsWithHttp u then
          match get_tags db u with
          | some v => if v ≠ "" then v else ta
          | none => ta
        else ta
      else ta
    Node.mk t u ti ta' (phase2Children db cs)

def phase2Children (db : DB) : List Node → List Node
  | [] => []
  | c :: cs => process_phase2 db c :: phase2Children db cs

end

mutual

/-- A generic tags-only rewriting of a tree: every node keeps its kind,
uri, title and child structure, and its `tags` field becomes
`f ty uri title tags`. -/
def mapTags (f : String → String → String → String → String) : Node → Node
  | .mk t u ti ta cs => Node.mk t u ti (f t u ti ta) (mapTagsChildren f cs)

def mapTagsChildren (f : String → String → String → String → String) : List Node → List Node
  | [] => []
  | c :: cs => mapTags f c :: mapTagsChildren f cs

end

/-- The per-node tags value Phase 2 computes from the store. -/
def newTags (db : DB) (t u _ti ta : String) : String :=
  if t = "text/x-moz-place" then
    if startsWithHttp u then
      match get_tags db u with
      | some v => if v ≠ "" then v else ta
      | none => ta
    else ta
  else ta

/-- One whole run after startup succeeded: collect the flat bookmark
list, run Phase 1 from a quota-clear state over the initial store, then
run Phase 2 over the tree with the final store.  Returns the final tree
and the final store. -/
def runOnce (init_mode : Bool) (fetch : String → String × String)
    (gen : String → String → GenResult) (db0 : DB) (tree : Node) : Node × DB :=
  let bms := collect_bookmarks tree
  let s := (process_phase1 init_mode fetch gen ⟨db0, false, 0⟩ bms).1
  (process_phase2 s.db tree, s.db)

/-- The files `main` touches: the input file (`none` = missing, `some t`
= present with tree `t`), the `input_path + ".temp"` working copy, and
the cache database file (`none` = not on disk). -/
structure FS where
  input : Option Node
  temp : Option Node
  dbFile : Option DB

/-- What a `main` invocation did. -/
structure MainResult where
  fs : FS
  completed : Bool
  ranPhase1 : Bool
  ranPhase2 : Bool

/-- `main`, with argument parsing done: `init_mode` is `--init`, `key`
models `GEMINI_API_KEY` (`none` = unset; the Python check
`if not GEMINI_API_KEY` also rejects the empty string).  Follows the
script's order: existence check on the input file, copy to `.temp`,
load and flatten, open/create the cache database, credential check,
Phase 1, Phase 2, write the output over the input path, remove the
`.temp` copy. -/
def main_model (init_mode : Bool) (fetch : String → String × String)
    (gen : String → String → GenResult) (key : Option String) (fs : FS) : MainResult :=
  match fs.input with
  | none => ⟨fs, false, false, false⟩
  | some tree =>
    let bms := collect_bookmarks tree
    let db0 := fs.dbFile.getD []
    let fs2 : FS := ⟨some tree, some tree, some db0⟩
    if key = none ∨ key = some "" then ⟨fs2, false, false, false⟩
    else
      let s1 := (process_phase1 init_mode fetch gen ⟨db0, false, 0⟩ bms).1
      let tree2 := process_phase2 s1.db tree
      ⟨⟨some tree2, none, some s1.db⟩, true, true, true⟩

/-! ### Tag Store lemmas -/

theorem findRow_upsertRow_tags (db : DB) (u t str : String) (n : Nat) :
    (findRow (upsertRow db u t str n) u).map Row.tags = some str := by
  induction db with
  | nil => simp [upsertRow, findRow]
  | cons p rest ih =>
    obtain ⟨u', r⟩ := p
    by_cases h : u' = u
    · simp [upsertRow, findRow, h]
    · simp [upsertRow, findRow, h, ih]

theorem findRow_upsertRow_ne (db : DB) (u t str : String) (n : Nat) (v : String)
    (h : u ≠ v) : findRow (upsertRow db u t str n) v = findRow db v := by
  induction db with
  | nil => simp [upsertRow, findRow, h]
  | cons p rest ih =>
    obtain ⟨u', r⟩ := p
    by_cases h' : u' = u
    · subst h'
      simp [upsertRow, findRow, h]
    · by_cases h'' : u' = v
      · simp [upsertRow, findRow, h', h'', Ne.symm h]
      · simp [upsertRow, findRow, h', h'', ih]

theorem findRow_upsertRow_some (db : DB) (u : String) (r : Row) (t str : String) (n : Nat)
    (h : findRow db u = some r) :
    findRow (upsertRow db u t str n) u = some ⟨r.title, str, n⟩ := by
  induction db with
  | nil => simp [findRow] at h
  | cons p rest ih =>
    obtain ⟨u', r'⟩ := p
    by_cases h' : u' = u
    · simp [findRow, h'] at h
      subst h
      simp [upsertRow, findRow, h']
    · simp [findRow, h'] at h
      simp [upsertRow, findRow, h', ih h]

theorem get_tags_upsert_self (db : DB) (url title : String) (l : List String) (now : Nat) :
    get_tags (upsert_tags db url title l now) url = some (String.intercalate "," l) := by
  simp [get_tags, upsert_tags, findRow_upsertRow_tags]

theorem get_tags_upsert_ne (db : DB) (url title : String) (l : List String) (now : Nat)
    (v : String) (h : url ≠ v) :
    get_tags (upsert_tags db url title l now) v = get_tags db v := by
  simp [get_tags, upsert_tags, findRow_upsertRow_ne db url title _ now v h]

/-- A batch of `upsert_tags` calls, applied left to right: the
`(url, title, tag-list, timestamp)` quadruples of each call. -/
def applyUpserts : DB → List (String × String × List String × Nat) → DB
  | db, [] => db
  | db, (u, t, l, n) :: ops => applyUpserts (upsert_tags db u t l n) ops

theorem get_tags_applyUpserts_ne (db : DB) (url : String)
    (ops : List (String × String × List String × Nat))
    (h : ∀ op ∈ ops, op.1 ≠ url) :
    get_tags (applyUpserts db ops) url = get_tags db url := by
  induction ops generalizing db with
  | nil => rfl
  | cons op ops ih =>
    obtain ⟨u, t, l, n⟩ := op
    simp only [applyUpserts]
    rw [ih _ (fun op hop => h op (List.mem_cons_of_mem _ hop))]
    exact get_tags_upsert_ne db u t l n url (h (u, t, l, n) (List.mem_cons_self _ _))

/-- C3: after `upsert(url, title, l)`, `get url` returns exactly the
delimited serialization of `l` (first conjunct; since it holds over any
prior store, a later upsert for the same URL fully overwrites the
previous tag-list with no merging), and the value persists across any
batch of later upserts whose URLs all differ from `url` (second
conjunct). -/
theorem upsert_get_last_write_wins :
    (∀ (db : DB) (url title : String) (l : List String) (now : Nat),
      get_tags (upsert_tags db url title l now) url = some (String.intercalate "," l))
    ∧ (∀ (db : DB) (url title : String) (l : List String) (now : Nat)
        (ops : List (String × String × List String × Nat)),
        (∀ op ∈ ops, op.1 ≠ url) →
        get_tags (applyUpserts (upsert_tags db url title l now) ops) url
          = some (String.intercalate "," l)) := by
  refine ⟨get_tags_upsert_self, ?_⟩
  intro db url title l now ops h
  rw [get_tags_applyUpserts_ne _ _ _ h]
  exact get_tags_upsert_self db url title l now

theorem upsert_get_last_write_wins_witness :
    get_tags (upsert_tags [] "http://a.test" "T" ["x", "y"] 0) "http://a.test" = some "x,y"
    ∧ get_tags (applyUpserts (upsert_tags [] "http://a.test" "T" ["x", "y"] 0)
        [("http://b.test", "U", ["z"], 1)]) "http://a.test" = some "x,y" := by
  constructor
  · have h := upsert_get_last_write_wins.1 [] "http://a.test" "T" ["x", "y"] 0
    simpa using h
  · have h := upsert_get_last_write_wins.2 [] "http://a.test" "T" ["x", "y"] 0
      [("http://b.test", "U", ["z"], 1)] (by decide)
    simpa using h

/-- The store after `upsert("http://u.test", "t1", ["a"])`. -/
def dbTitleBefore : DB := upsert_tags [] "http://u.test" "t1" ["a"] 0

/-- `dbTitleBefore` after a second upsert for the same URL with a
different title. -/
def dbTitleAfter : DB := upsert_tags dbTitleBefore "http://u.test" "t2" ["b"] 1

/-- C7 counterexample: after a second upsert for an existing URL with
title `"t2"`, the stored title is still `"t1"` — the `ON CONFLICT`
clause replaces only `tags` and `updated_at`, so the stored title does
not equal the title argument of the most recent upsert. -/
theorem upsert_title_not_replaced :
    (findRow dbTitleAfter "http://u.test").map Row.title = some "t1"
    ∧ ("t1" : String) ≠ "t2" := by
  constructor
  · rfl
  · decide

/-- C7 amended: for a URL that already has a record, `upsert` replaces
the record's tag-list and timestamp with the given ones, but keeps the
previously stored title (the title argument is ignored on conflict). -/
theorem upsert_replaces_tags_and_timestamp (db : DB) (url : String) (r : Row)
    (title : String) (l : List String) (now : Nat) (h : findRow db url = some r) :
    findRow (upsert_tags db url title l now) url
      = some ⟨r.title, String.intercalate "," l, now⟩ :=
  findRow_upsertRow_some db url r title _ now h

theorem upsert_replaces_tags_and_timestamp_witness :
    findRow dbTitleAfter "http://u.test" = some ⟨"t1", "b", 1⟩ := by
  have h := upsert_replaces_tags_and_timestamp dbTitleBefore "http://u.test" ⟨"t1", "a", 0⟩
    "t2" ["b"] 1 (by decide)
  simpa [dbTitleAfter] using h

/-! ### Phase 1 step lemmas -/

theorem step_quota_persists (init_mode : Bool) (fetch : String → String × String)
    (gen : String → String → GenResult) (s : P1State) (n : Node) (h : s.quota = true) :
    (step init_mode fetch gen s n).1.quota = true
    ∧ ((step init_mode fetch gen s n).2).isGenCall = false := by
  by_cases c1 : startsWithHttp n.uri = false
  · simp [step, c1, h, Outcome.isGenCall]
  · by_cases c2 : init_mode = false ∧ parseTags n.tags ≠ []
    · simp [step, c1, c2, h, Outcome.isGenCall]
    · by_cases c3 : init_mode = false ∧ (get_tags s.db n.uri).isSome = true
      · have hman : parseTags n.tags = [] := by
          by_contra hne
          exact c2 ⟨c3.1, hne⟩
        simp [step, c1, c2, c3, hman, h, Outcome.isGenCall]
      · simp [step, c1, c2, c3, h, Outcome.isGenCall]

theorem step_quotaHit_sets_flag (init_mode : Bool) (fetch : String → String × String)
    (gen : String → String → GenResult) (s : P1State) (n : Node)
    (h : (step init_mode fetch gen s n).2 = Outcome.quotaHit) :
    (step init_mode fetch gen s n).1.quota = true := by
  by_cases c1 : startsWithHttp n.uri = false
  · simp [step, c1] at h
  · by_cases c2 : init_mode = false ∧ parseTags n.tags ≠ []
    · simp [step, c1, c2] at h
    · by_cases c3 : init_mode = false ∧ (get_tags s.db n.uri).isSome = true
      · have hman : parseTags n.tags = [] := by
          by_contra hne
          exact c2 ⟨c3.1, hne⟩
        simp [step, c1, c2, c3, hman] at h
      · by_cases c4 : s.quota = true
        · simp [step, c1, c2, c3, c4] at h
        · by_cases c5 : finalTitle n (fetch n.uri) ≠ "" ∨ (fetch n.uri).2 ≠ ""
          · rcases hg : gen (finalTitle n (fetch n.uri)) (fetch n.uri).2 with tags | _
            · by_cases c6 : tags ≠ []
              · simp [step, c1, c2, c3, c4, c5, hg, c6] at h
              · simp [step, c1, c2, c3, c4, c5, hg, c6] at h
            · simp [step, c1, c2, c3, c4, c5, hg]
          · simp [step, c1, c2, c3, c4, c5] at h

theorem step_manualSync (fetch : String → String × String) (gen : String → String → GenResult)
    (s : P1State) (n : Node) (hh : startsWithHttp n.uri = true)
    (hman : parseTags n.tags ≠ []) :
    step false fetch gen s n
      = (⟨upsert_tags s.db n.uri n.title (parseTags n.tags) s.time, s.quota, s.time + 1⟩,
         Outcome.manualSync) := by
  simp [step, hh, hman]

theorem step_cacheHit (fetch : String → String × String) (gen : String → String → GenResult)
    (s : P1State) (n : Node) (hh : startsWithHttp n.uri = true)
    (hman : parseTags n.tags = []) (hc : (get_tags s.db n.uri).isSome = true) :
    step false fetch gen s n = (s, Outcome.cacheHit) := by
  simp [step, hh, hman, hc]

theorem step_db_cases (init_mode : Bool) (fetch : String → String × String)
    (gen : String → String → GenResult) (s : P1State) (n : Node) :
    (step init_mode fetch gen s n).1.db = s.db
    ∨ ∃ t l, (step init_mode fetch gen s n).1.db = upsert_tags s.db n.uri t l s.time := by
  by_cases c1 : startsWithHttp n.uri = false
  · left; simp [step, c1]
  · by_cases c2 : init_mode = false ∧ parseTags n.tags ≠ []
    · right
      exact ⟨n.title, parseTags n.tags, by simp [step, c1, c2]⟩
    · by_cases c3 : init_mode = false ∧ (get_tags s.db n.uri).isSome = true
      · have hman : parseTags n.tags = [] := by
          by_contra hne
          exact c2 ⟨c3.1, hne⟩
        left; simp [step, c1, c2, c3, hman]
      · by_cases c4 : s.quota = true
        · left; simp [step, c1, c2, c3, c4]
        · by_cases c5 : finalTitle n (fetch n.uri) ≠ "" ∨ (fetch n.uri).2 ≠ ""
          · rcases hg : gen (finalTitle n (fetch n.uri)) (fetch n.uri).2 with tags | _
            · by_cases c6 : tags ≠ []
              · right
                exact ⟨finalTitle n (fetch n.uri), tags,
                  by simp [step, c1, c2, c3, c4, c5, hg, c6]⟩
              · left; simp [step, c1, c2, c3, c4, c5, hg, c6]
            · left; simp [step, c1, c2, c3, c4, c5, hg]
          · left; simp [step, c1, c2, c3, c4, c5]

theorem phase1_quota_persists (init_mode : Bool) (fetch : String → String × String)
    (gen : String → String → GenResult) (s : P1State) (ns : List Node) (h : s.quota = true) :
    (process_phase1 init_mode fetch gen s ns).1.quota = true
    ∧ ∀ o ∈ (process_phase1 init_mode fetch gen s ns).2, o.isGenCall = false := by
  induction ns generalizing s with
  | nil => simp [process_phase1, h]
  | cons n ns ih =>
    have hs := step_quota_persists init_mode fetch gen s n h
    have ih' := ih (step init_mode fetch gen s n).1 hs.1
    refine ⟨by simpa [process_phase1] using ih'.1, ?_⟩
    intro o ho
    simp only [process_phase1, List.mem_cons] at ho
    rcases ho with ho | ho
    · rw [ho]; exact hs.2
    · exact ih'.2 o ho

theorem process_phase1_append (init_mode : Bool) (fetch : String → String × String)
    (gen : String → String → GenResult) (s : P1State) (xs ys : List Node) :
    process_phase1 init_mode fetch gen s (xs ++ ys)
      = ((process_phase1 init_mode fetch gen
            (process_phase1 init_mode fetch gen s xs).1 ys).1,
         (process_phase1 init_mode fetch gen s xs).2
           ++ (process_phase1 init_mode fetch gen
                 (process_phase1 init_mode fetch gen s xs).1 ys).2) := by
  induction xs generalizing s with
  | nil => simp [process_phase1]
  | cons x xs ih => simp [process_phase1, ih]

theorem step_preserves_cached (fetch : String → String × String)
    (gen : String → String → GenResult) (s : P1State) (m : Node) (u v : String)
    (hget : get_tags s.db u = some v)
    (hm : m.uri = u → startsWithHttp m.uri = true → parseTags m.tags = []) :
    get_tags (step false fetch gen s m).1.db u = some v := by
  by_cases hh : startsWithHttp m.uri = true
  · by_cases hu : m.uri = u
    · have hman := hm hu hh
      have hc : (get_tags s.db m.uri).isSome = true := by rw [hu, hget]; rfl
      rw [step_cacheHit fetch gen s m hh hman hc]
      exact hget
    · rcases step_db_cases false fetch gen s m with hdb | ⟨t, l, hdb⟩
      · rw [hdb]; exact hget
      · rw [hdb, get_tags_upsert_ne s.db m.uri t l s.time u hu]; exact hget
  · have hh' : startsWithHttp m.uri = false := by simpa using hh
    simp [step, hh', hget]

/-- A fetcher returning an empty title and snippet for every URL
(every content fetch fails). -/
def fEmpty : String → String × String := fun _ => ("", "")

/-- A fetcher returning the fixed non-empty page `("T", "C")`. -/
def fT : String → String × String := fun _ => ("T", "C")

/-- A generator stub returning `["foo", "bar"]` for any input. -/
def gFB : String → String → GenResult := fun _ _ => .ok ["foo", "bar"]

/-- A generator stub signalling quota exhaustion on every call. -/
def gQ : String → String → GenResult := fun _ _ => .quota

/-- A taggable leaf with empty title and empty manual tags. -/
def nodeA : Node := .mk "text/x-moz-place" "http://a.test" "" "" []

/-- A taggable leaf with manual tag `a`. -/
def nodeM : Node := .mk "text/x-moz-place" "http://u.test" "T1" "a" []

/-- A second taggable leaf with the same uri as `nodeM` and manual
tag `b`. -/
def nodeM2 : Node := .mk "text/x-moz-place" "http://u.test" "T2" "b" []

/-- A store holding a record with an empty tag-list for `nodeA`'s URL. -/
def dbEmptyRec : DB := [("http://a.test", ⟨"T", "", 0⟩)]

/-- A store holding a stale cached value for `nodeM`'s URL. -/
def dbPrior : DB := [("http://u.test", ⟨"T", "old", 0⟩)]

theorem phase1_preserves_cached (fetch : String → String × String)
    (gen : String → String → GenResult) (s : P1State) (ns : List Node) (u v : String)
    (hget : get_tags s.db u = some v)
    (hns : ∀ m ∈ ns, m.uri = u → startsWithHttp m.uri = true → parseTags m.tags = []) :
    get_tags (process_phase1 false fetch gen s ns).1.db u = some v := by
  induction ns generalizing s with
  | nil => simpa [process_phase1]
  | cons m ns ih =>
    simp only [process_phase1]
    exact ih (step false fetch gen s m).1
      (step_preserves_cached fetch gen s m u v hget (hns m (List.mem_cons_self _ _)))
      (fun m' hm' => hns m' (List.mem_cons_of_mem _ hm'))

/-! ### Claims about Phase 1 -/

/-- C1: once the generator signals quota exhaustion at some leaf the
run-scoped flag is set (first conjunct), and from any state with the
flag set it stays set for the rest of the run and no generation call is
made for any subsequent leaf (second conjunct), while branch 1
(manual-tag sync to the store, non-refresh mode) and branch 2
(cache-hit skip, non-refresh mode) still execute as usual for such
leaves (third and fourth conjuncts). -/
theorem phase1_quota_exhaustion_behavior :
    (∀ (init_mode : Bool) (fetch : String → String × String)
        (gen : String → String → GenResult) (s : P1State) (n : Node),
      (step init_mode fetch gen s n).2 = Outcome.quotaHit →
      (step init_mode fetch gen s n).1.quota = true)
    ∧ (∀ (init_mode : Bool) (fetch : String → String × String)
        (gen : String → String → GenResult) (s : P1State) (ns : List Node),
        s.quota = true →
        (process_phase1 init_mode fetch gen s ns).1.quota = true
        ∧ ∀ o ∈ (process_phase1 init_mode fetch gen s ns).2, o.isGenCall = false)
    ∧ (∀ (fetch : String → String × String) (gen : String → String → GenResult)
        (s : P1State) (n : Node), s.quota = true →
        startsWithHttp n.uri = true → parseTags n.tags ≠ [] →
        step false fetch gen s n
          = (⟨upsert_tags s.db n.uri n.title (parseTags n.tags) s.time, true, s.time + 1⟩,
             Outcome.manualSync))
    ∧ (∀ (fetch : String → String × String) (gen : String → String → GenResult)
        (s : P1State) (n : Node), s.quota = true →
        startsWithHttp n.uri = true → parseTags n.tags = [] →
        (get_tags s.db n.uri).isSome = true →
        step false fetch gen s n = (s, Outcome.cacheHit)) := by
  refine ⟨step_quotaHit_sets_flag, phase1_quota_persists, ?_, ?_⟩
  · intro fetch gen s n hq hh hman
    rw [step_manualSync fetch gen s n hh hman, hq]
  · intro fetch gen s n _ hh hman hc
    exact step_cacheHit fetch gen s n hh hman hc

theorem phase1_quota_exhaustion_behavior_witness :
    (step false fT gQ ⟨[], false, 0⟩ nodeA).1.quota = true
    ∧ ((process_phase1 false fT gFB ⟨[], true, 0⟩ [nodeA]).1.quota = true
        ∧ ∀ o ∈ (process_phase1 false fT gFB ⟨[], true, 0⟩ [nodeA]).2, o.isGenCall = false)
    ∧ step false fT gFB ⟨[], true, 5⟩ nodeM
        = (⟨upsert_tags [] nodeM.uri nodeM.title (parseTags nodeM.tags) 5, true, 6⟩,
           Outcome.manualSync)
    ∧ step false fT gFB ⟨dbEmptyRec, true, 5⟩ nodeA = (⟨dbEmptyRec, true, 5⟩, Outcome.cacheHit) :=
  ⟨phase1_quota_exhaustion_behavior.1 false fT gQ ⟨[], false, 0⟩ nodeA (by decide),
   phase1_quota_exhaustion_behavior.2.1 false fT gFB ⟨[], true, 0⟩ [nodeA] rfl,
   phase1_quota_exhaustion_behavior.2.2.1 fT gFB ⟨[], true, 5⟩ nodeM rfl (by decide) (by decide),
   phase1_quota_exhaustion_behavior.2.2.2 fT gFB ⟨dbEmptyRec, true, 5⟩ nodeA rfl (by decide)
     (by decide) (by decide)⟩

/-- C5: in non-refresh mode, a taggable leaf with empty parsed manual
tags whose URL already has a store record — even one whose tag-list is
the empty string — is processed without touching the run state (store
included), and its outcome records neither a content fetch nor a
generation call. -/
theorem phase1_cache_hit_skip (fetch : String → String × String)
    (gen : String → String → GenResult) (s : P1State) (n : Node)
    (hh : startsWithHttp n.uri = true) (hman : parseTags n.tags = [])
    (hc : (get_tags s.db n.uri).isSome = true) :
    step false fetch gen s n = (s, Outcome.cacheHit)
    ∧ Outcome.cacheHit.isFetchCall = false ∧ Outcome.cacheHit.isGenCall = false :=
  ⟨step_cacheHit fetch gen s n hh hman hc, rfl, rfl⟩

theorem phase1_cache_hit_skip_witness :
    step false fT gFB ⟨dbEmptyRec, false, 0⟩ nodeA = (⟨dbEmptyRec, false, 0⟩, Outcome.cacheHit)
    ∧ Outcome.cacheHit.isFetchCall = false ∧ Outcome.cacheHit.isGenCall = false :=
  phase1_cache_hit_skip fT gFB ⟨dbEmptyRec, false, 0⟩ nodeA (by decide) (by decide) (by decide)

/-- C2 counterexample: two taggable leaves share the uri
`"http://u.test"`, the first with manual tag-list `["a"]`, the second
with manual tag-list `["b"]`.  After Phase 1 (non-refresh, empty
initial store) the store record for that uri holds `"b"`, not the first
leaf's manual serialization `"a"` — so the claim, which promises every
such leaf its own manual tags in the store after Phase 1, fails for the
first leaf. -/
theorem phase1_manual_tags_win_counterexample :
    get_tags (process_phase1 false fT gFB ⟨[], false, 0⟩ [nodeM, nodeM2]).1.db "http://u.test"
      = some "b"
    ∧ parseTags nodeM.tags = ["a"]
    ∧ some "b" ≠ some (String.intercalate "," (parseTags nodeM.tags)) :=
  ⟨by decide, by decide, by decide⟩

/-- C2 (amended): in non-refresh mode a taggable leaf with a non-empty
parsed manual tag-list is handled by branch 1 alone: at whatever state
it is reached, exactly its parsed manual tags are upserted under its
uri with the node's title and nothing else changes (first conjunct),
its outcome records no content fetch and no generation call (second and
third conjuncts), and — provided no later leaf of the run shares its
uri with a non-empty manual tag-list — at the end of Phase 1 the store
record for that uri holds exactly the manual tags, whatever value was
cached before (fourth conjunct). -/
theorem phase1_manual_tags_win (fetch : String → String × String)
    (gen : String → String → GenResult) (s : P1State) (pre post : List Node) (n : Node)
    (hh : startsWithHttp n.uri = true) (hman : parseTags n.tags ≠ [])
    (hpost : ∀ m ∈ post, m.uri = n.uri → startsWithHttp m.uri = true → parseTags m.tags = []) :
    (∀ s' : P1State,
      step false fetch gen s' n
        = (⟨upsert_tags s'.db n.uri n.title (parseTags n.tags) s'.time, s'.quota, s'.time + 1⟩,
           Outcome.manualSync))
    ∧ Outcome.manualSync.isFetchCall = false ∧ Outcome.manualSync.isGenCall = false
    ∧ get_tags (process_phase1 false fetch gen s (pre ++ n :: post)).1.db n.uri
        = some (String.intercalate "," (parseTags n.tags)) := by
  refine ⟨fun s' => step_manualSync fetch gen s' n hh hman, rfl, rfl, ?_⟩
  rw [process_phase1_append]
  show get_tags
      (process_phase1 false fetch gen (process_phase1 false fetch gen s pre).1 (n :: post)).1.db
      n.uri = _
  simp only [process_phase1]
  apply phase1_preserves_cached
  · rw [step_manualSync fetch gen (process_phase1 false fetch gen s pre).1 n hh hman]
    exact get_tags_upsert_self _ n.uri n.title (parseTags n.tags) _
  · exact hpost

theorem phase1_manual_tags_win_witness :
    step false fT gFB ⟨dbPrior, false, 0⟩ nodeM
      = (⟨upsert_tags dbPrior nodeM.uri nodeM.title (parseTags nodeM.tags) 0, false, 1⟩,
         Outcome.manualSync)
    ∧ Outcome.manualSync.isFetchCall = false ∧ Outcome.manualSync.isGenCall = false
    ∧ get_tags (process_phase1 false fT gFB ⟨dbPrior, false, 0⟩ [nodeM, nodeA]).1.db nodeM.uri
        = some "a" :=
  have H := phase1_manual_tags_win fT gFB ⟨dbPrior, false, 0⟩ [] [nodeA] nodeM
    (by decide) (by decide) (by decide)
  ⟨H.1 ⟨dbPrior, false, 0⟩, H.2.1, H.2.2.1, H.2.2.2⟩

/-! ### Claims about the walker and Phase 2 -/

mutual

theorem collect_eq_filter : (n : Node) →
    collect_bookmarks n = (preorder n).filter (fun m => m.ty == "text/x-moz-place")
  | .mk t u ti ta cs => by
    simp only [collect_bookmarks, preorder, List.filter_cons]
    rw [collectChildren_eq_filter cs]
    by_cases h : t = "text/x-moz-place"
    · simp [h, Node.ty]
    · simp [h, Node.ty]

theorem collectChildren_eq_filter : (cs : List Node) →
    collectChildren cs = (preorderChildren cs).filter (fun m => m.ty == "text/x-moz-place")
  | [] => rfl
  | c :: cs => by
    simp only [collectChildren, preorderChildren, List.filter_append]
    rw [collect_eq_filter c, collectChildren_eq_filter cs]

end

/-- A bookmark-place node whose uri is empty (models a place node with
an absent or non-HTTP uri). -/
def nodePlaceNoUri : Node := .mk "text/x-moz-place" "" "" "" []

/-- C6 counterexample: `collect_bookmarks` appends any node whose kind
is `text/x-moz-place`, without inspecting the uri — this place node with
an empty uri is collected although it is not a taggable leaf (its uri
does not begin with an HTTP scheme).  The HTTP filter is applied only
later, inside the phases. -/
theorem collect_includes_non_http_leaf :
    collect_bookmarks nodePlaceNoUri = [nodePlaceNoUri]
    ∧ isTaggableLeaf nodePlaceNoUri = false :=
  ⟨rfl, by decide⟩

/-- C6 (amended): `collect_bookmarks` is a pure function equal to the
depth-first pre-order traversal filtered by the kind test
`type == 'text/x-moz-place'` alone — each matching node is appended
before its descendants, children are visited in array order, and the
uri plays no role in the selection (non-HTTP place nodes are collected
too; the HTTP-scheme filter happens later in the phases).  Being a pure
function of the tree, running it twice yields identical sequences. -/
theorem collect_preorder_kind_filter (n : Node) :
    collect_bookmarks n = (preorder n).filter (fun m => m.ty == "text/x-moz-place") :=
  collect_eq_filter n

mutual

theorem phase2_eq_mapTags : (db : DB) → (n : Node) →
    process_phase2 db n = mapTags (newTags db) n
  | db, .mk t u ti ta cs => by
    simp only [process_phase2, mapTags, newTags]
    rw [phase2Children_eq_mapTags db cs]

theorem phase2Children_eq_mapTags : (db : DB) → (cs : List Node) →
    phase2Children db cs = mapTagsChildren (newTags db) cs
  | _, [] => rfl
  | db, c :: cs => by
    simp only [phase2Children, mapTagsChildren]
    rw [phase2_eq_mapTags db c, phase2Children_eq_mapTags db cs]

end

/-- C4: Phase 2 is exactly a tags-only rewrite of the tree (first
conjunct: kind, uri, title and child structure of every node are
preserved, only the `tags` field is recomputed).  The per-node tags
value is unchanged when the store has no record for the node's URL
(second conjunct) or when the stored tag-list is the empty string
(third conjunct), and equals the stored delimiter-joined tag-list for a
taggable leaf when that value is non-empty (fourth conjunct). -/
theorem phase2_frame_and_effect :
    (∀ (db : DB) (n : Node), process_phase2 db n = mapTags (newTags db) n)
    ∧ (∀ (db : DB) (t u ti ta : String), get_tags db u = none → newTags db t u ti ta = ta)
    ∧ (∀ (db : DB) (t u ti ta : String), get_tags db u = some "" → newTags db t u ti ta = ta)
    ∧ (∀ (db : DB) (u ti ta v : String), get_tags db u = some v → v ≠ "" →
        startsWithHttp u = true → newTags db "text/x-moz-place" u ti ta = v) := by
  refine ⟨phase2_eq_mapTags, ?_, ?_, ?_⟩
  · intro db t u ti ta h
    simp [newTags, h]
  · intro db t u ti ta h
    simp [newTags, h]
  · intro db u ti ta v h hv hh
    simp [newTags, h, hv, hh]

theorem phase2_frame_and_effect_witness :
    process_phase2 dbPrior nodeM = mapTags (newTags dbPrior) nodeM
    ∧ newTags [] "text/x-moz-place" "http://a.test" "T" "old" = "old"
    ∧ newTags dbEmptyRec "text/x-moz-place" "http://a.test" "T" "old" = "old"
    ∧ newTags dbPrior "text/x-moz-place" "http://u.test" "T" "x" = "old" :=
  ⟨phase2_frame_and_effect.1 dbPrior nodeM,
   phase2_frame_and_effect.2.1 [] "text/x-moz-place" "http://a.test" "T" "old" rfl,
   phase2_frame_and_effect.2.2.1 dbEmptyRec "text/x-moz-place" "http://a.test" "T" "old"
     (by decide),
   phase2_frame_and_effect.2.2.2 dbPrior "http://u.test" "T" "x" "old" (by decide) (by decide)
     (by decide)⟩

/-! ### End-to-end claims -/

/-- C8 counterexample: with the tree containing exactly the taggable
leaf `nodeA`, an empty store and the generator stub `gFB` returning
`["foo", "bar"]` for any input, a non-refresh run whose content fetch
returns empty title and snippet (`fEmpty`) skips generation entirely:
the node's tags stay `""` and the store stays without a record — not
`"foo,bar"` as the claim promises for every such run. -/
theorem run_end_to_end_counterexample :
    ((runOnce false fEmpty gFB [] nodeA).1).tags = ""
    ∧ get_tags (runOnce false fEmpty gFB [] nodeA).2 "http://a.test" = none
    ∧ ¬(((runOnce false fEmpty gFB [] nodeA).1).tags = "foo,bar") :=
  ⟨by decide, by decide, by decide⟩

/-- C8 (amended): for the tree containing exactly the taggable leaf
`{uri: "http://a.test", title: "", tags: ""}`, an initially empty store
and a generator returning `["foo", "bar"]` for any input, a non-refresh
run terminates with that node's tags equal to `"foo,bar"` and the store
holding `"foo,bar"` under `"http://a.test"`, provided the content fetch
for that URL returns a non-empty page title or snippet (with an empty
fetch result the generation step is skipped and nothing changes). -/
theorem run_end_to_end_generates (fetch : String → String × String)
    (hf : (fetch "http://a.test").1 ≠ "" ∨ (fetch "http://a.test").2 ≠ "") :
    ((runOnce false fetch gFB [] nodeA).1).tags = "foo,bar"
    ∧ get_tags (runOnce false fetch gFB [] nodeA).2 "http://a.test" = some "foo,bar" := by
  have hsw : startsWithHttp "http://a.test" = true := by decide
  have hman : parseTags "" = [] := by decide
  have hne : ("foo,bar" : String) ≠ "" := by decide
  have hstep :
      step false fetch gFB ⟨[], false, 0⟩ (Node.mk "text/x-moz-place" "http://a.test" "" "" [])
      = (⟨upsert_tags [] "http://a.test" (fetch "http://a.test").1 ["foo", "bar"] 0, false, 1⟩,
         Outcome.generated ["foo", "bar"]) := by
    simp [step, Node.uri, Node.title, Node.tags, finalTitle, hsw, hman, hf, gFB, get_tags,
      findRow]
  have hget : get_tags (upsert_tags [] "http://a.test" (fetch "http://a.test").1 ["foo", "bar"] 0)
      "http://a.test" = some "foo,bar" := by
    rw [get_tags_upsert_self]
    decide
  have h2 : process_phase2
        (upsert_tags [] "http://a.test" (fetch "http://a.test").1 ["foo", "bar"] 0)
        (Node.mk "text/x-moz-place" "http://a.test" "" "" [])
      = Node.mk "text/x-moz-place" "http://a.test" "" "foo,bar" [] := by
    simp [process_phase2, phase2Children, hget, hsw, hne]
  constructor
  · simp [runOnce, nodeA, collect_bookmarks, collectChildren, process_phase1, hstep, h2,
      Node.tags]
  · simp [runOnce, nodeA, collect_bookmarks, collectChildren, process_phase1, hstep, hget]

theorem run_end_to_end_generates_witness :
    ((runOnce false fT gFB [] nodeA).1).tags = "foo,bar"
    ∧ get_tags (runOnce false fT gFB [] nodeA).2 "http://a.test" = some "foo,bar" :=
  run_end_to_end_generates fT (by decide)

/-! ### Startup behaviour of `main` -/

/-- C9: with the input file missing, `main` returns before touching
anything — the file state is unchanged and neither phase ran (first
conjunct); with the input present but the generation-service credential
unset or empty, `main` returns after the copy/open steps but before the
phases — the input file still holds the original tree unchanged,
neither Phase 1 nor Phase 2 ran, and the run is not marked completed
(second conjunct). -/
theorem main_aborts_cleanly :
    (∀ (init_mode : Bool) (fetch : String → String × String)
        (gen : String → String → GenResult) (key : Option String) (fs : FS),
      fs.input = none →
      main_model init_mode fetch gen key fs = ⟨fs, false, false, false⟩)
    ∧ (∀ (init_mode : Bool) (fetch : String → String × String)
        (gen : String → String → GenResult) (key : Option String) (fs : FS) (tree : Node),
        fs.input = some tree → (key = none ∨ key = some "") →
        (main_model init_mode fetch gen key fs).fs.input = some tree
        ∧ (main_model init_mode fetch gen key fs).completed = false
        ∧ (main_model init_mode fetch gen key fs).ranPhase1 = false
        ∧ (main_model init_mode fetch gen key fs).ranPhase2 = false) := by
  constructor
  · intro i f g k fs h
    simp [main_model, h]
  · intro i f g k fs tree h hk
    simp [main_model, h, hk]

theorem main_aborts_cleanly_witness :
    main_model false fT gFB (some "k") ⟨none, none, none⟩
      = ⟨⟨none, none, none⟩, false, false, false⟩
    ∧ ((main_model false fT gFB none ⟨some nodeA, none, none⟩).fs.input = some nodeA
       ∧ (main_model false fT gFB none ⟨some nodeA, none, none⟩).completed = false
       ∧ (main_model false fT gFB none ⟨some nodeA, none, none⟩).ranPhase1 = false
       ∧ (main_model false fT gFB none ⟨some nodeA, none, none⟩).ranPhase2 = false) :=
  ⟨main_aborts_cleanly.1 false fT gFB (some "k") ⟨none, none, none⟩ rfl,
   main_aborts_cleanly.2 false fT gFB none ⟨some nodeA, none, none⟩ nodeA rfl (Or.inl rfl)⟩

/-- C10: on the missing-credential path with the input present, the
working copy and the cache database have already been set up before the
credential check and the early return skips the cleanup: the `.temp`
copy holds the tree and remains on disk, the database file exists
(created empty if absent, prior contents untouched), the run is not
completed and no phase ran (first conjunct); and whenever the input
file exists, the `.temp` copy is absent after the run exactly when the
run completed — i.e. the `.temp` file is removed only on the
successful-completion path (second conjunct). -/
theorem main_missing_credential_leaves_temp :
    (∀ (init_mode : Bool) (fetch : String → String × String)
        (gen : String → String → GenResult) (key : Option String) (fs : FS) (tree : Node),
      fs.input = some tree → (key = none ∨ key = some "") →
      (main_model init_mode fetch gen key fs).fs.temp = some tree
      ∧ (main_model init_mode fetch gen key fs).fs.dbFile = some (fs.dbFile.getD [])
      ∧ (main_model init_mode fetch gen key fs).completed = false
      ∧ (main_model init_mode fetch gen key fs).ranPhase1 = false)
    ∧ (∀ (init_mode : Bool) (fetch : String → String × String)
        (gen : String → String → GenResult) (key : Option String) (fs : FS) (tree : Node),
        fs.input = some tree →
        ((main_model init_mode fetch gen key fs).completed = true
          ↔ (main_model init_mode fetch gen key fs).fs.temp = none)) := by
  constructor
  · intro i f g k fs tree h hk
    simp [main_model, h, hk]
  · intro i f g k fs tree h
    by_cases hk : k = none ∨ k = some ""
    · simp [main_model, h, hk]
    · simp [main_model, h, hk]

theorem main_missing_credential_leaves_temp_witness :
    ((main_model false fT gFB (some "") ⟨some nodeA, none, some dbPrior⟩).fs.temp = some nodeA
     ∧ (main_model false fT gFB (some "") ⟨some nodeA, none, some dbPrior⟩).fs.dbFile
         = some dbPrior
     ∧ (main_model false fT gFB (some "") ⟨some nodeA, none, some dbPrior⟩).completed = false
     ∧ (main_model false fT gFB (some "") ⟨some nodeA, none, some dbPrior⟩).ranPhase1 = false)
    ∧ ((main_model false fT gFB (some "k") ⟨some nodeA, none, none⟩).completed = true
        ↔ (main_model false fT gFB (some "k") ⟨some nodeA, none, none⟩).fs.temp = none) :=
  ⟨main_missing_credential_leaves_temp.1 false fT gFB (some "") ⟨some nodeA, none, some dbPrior⟩
     nodeA rfl (Or.inr rfl),
   main_missing_credential_leaves_temp.2 false fT gFB (some "k") ⟨some nodeA, none, none⟩
     nodeA rfl⟩
